import Mathlib

/-!
Shallow embedding of the boolean query engine in `src/main.py`:
the `Expr` class hierarchy (`Term`, `NotOp`, `AndOp`, `OrOp`), `tokenize`,
`shunting_yard`, `build_ast`, `parse_query`, `ast_to_dnf`, and the
DNF evaluation `any(all(c.eval(texto) for c in conj) for conj in dnf)`
used by the main loop.

Python strings are modelled as Lean `String`/`List Char`; case mapping
(`str.lower`/`str.upper`) is modelled at the ASCII level (`Char.toLower`/
`Char.toUpper`), which agrees with Python on every input appearing in the
claims.  Python exceptions (`IndexError` from `list.pop()` on an empty
list) are modelled by `Option`, with `none` standing for the raised error.
-/

/-- Python whitespace for `str.strip()` and the regex class `\s` (ASCII part). -/
def isPySpace (c : Char) : Bool :=
  c = ' ' || c = '\t' || c = '\n' || c = '\r' || c = '\x0b' || c = '\x0c'

/-- The regex word-character class `\w` (ASCII part), used for `\b` boundaries. -/
def isWordChar (c : Char) : Bool :=
  c.isAlpha || c.isDigit || c = '_'

/-- A parenthesis character. -/
def isParen (c : Char) : Bool :=
  c = '(' || c = ')'

/-- A character matched by the regex class `[^()\s]`. -/
def isRunChar (c : Char) : Bool :=
  !(isPySpace c) && !(isParen c)

/-- `str.lower()` (ASCII model), characterwise. -/
def pyLower (s : List Char) : List Char :=
  s.map Char.toLower

/-- `str.upper()` (ASCII model), characterwise. -/
def pyUpper (s : List Char) : List Char :=
  s.map Char.toUpper

/-- `str.strip()`: drop leading and trailing whitespace. -/
def pyStrip (s : List Char) : List Char :=
  ((s.dropWhile isPySpace).reverse.dropWhile isPySpace).reverse

/-- `String` wrapper for `pyLower`. -/
def strLower (s : String) : String :=
  String.mk (pyLower s.data)

/-- `String` wrapper for `pyUpper`; models `tk.upper()`. -/
def strUpper (s : String) : String :=
  String.mk (pyUpper s.data)

/-- Does `hay` start with `needle`?  (Models the initial-segment test used to
define Python's substring containment.) -/
def startsWithList : List Char → List Char → Bool
  | [], _ => true
  | _ :: _, [] => false
  | a :: as, b :: bs => a == b && startsWithList as bs

/-- Python's `needle in hay` on strings: `needle` occurs contiguously in `hay`. -/
def listContainsSub (needle : List Char) : List Char → Bool
  | [] => needle.isEmpty
  | c :: cs => startsWithList needle (c :: cs) || listContainsSub needle cs

/-- The expression classes `Term` / `NotOp` / `AndOp` / `OrOp` of `src/main.py`.
`term` holds the string stored in the `Term` object's `self.term` field. -/
inductive Expr : Type
  | term : String → Expr
  | notOp : Expr → Expr
  | andOp : Expr → Expr → Expr
  | orOp : Expr → Expr → Expr
  deriving DecidableEq

/-- The `Term(...)` constructor: `self.term = term.lower().strip()`. -/
def mkTerm (s : String) : Expr :=
  Expr.term (String.mk (pyStrip (pyLower s.data)))

/-- `Expr.eval`: `Term` tests `self.term in txt.lower()`, `NotOp` negates,
`AndOp`/`OrOp` are boolean conjunction/disjunction. -/
def Expr.eval : Expr → String → Bool
  | .term v, txt => listContainsSub v.data (pyLower txt.data)
  | .notOp c, txt => !(c.eval txt)
  | .andOp l r, txt => l.eval txt && r.eval txt
  | .orOp l r, txt => l.eval txt || r.eval txt

/-- Is this node a DNF literal (a `Term` or a `NotOp`)? -/
def isLiteral : Expr → Bool
  | .term _ => true
  | .notOp _ => true
  | .andOp _ _ => false
  | .orOp _ _ => false

/-!  ## Tokenizer

`tokenize` runs
`re.findall(r'\(|\)|\bAND\b|\bOR\b|\bNOT\b|[^()\s]+(?:\s+[^()\s]+)*', q, re.IGNORECASE)`
and strips/filters the matches.  `findall` scans left to right; at each
position the alternatives are tried in order, so a keyword is recognised
only when the scan position sits exactly at its start (which, given the
catch-all run alternative, happens only at the start of a word run);
otherwise the greedy final alternative swallows a maximal run of
space-separated non-parenthesis words into a single match.  `prevWord`
tracks whether the previously consumed character is a word character,
implementing the leading `\b` of the keyword alternatives. -/

/-- Try to match one keyword alternative `\bKW\b` at the current position:
the next characters spell `kw` case-insensitively and the following
character (if any) is not a word character.  Returns the matched text
(original case) and the rest. -/
def kwMatch (kw : List Char) (l : List Char) : Option (List Char × List Char) :=
  let k := kw.length
  let hd := l.take k
  let rest := l.drop k
  let boundary := match rest with
    | [] => true
    | c :: _ => !isWordChar c
  if hd.map Char.toUpper = kw ∧ hd.length = k ∧ boundary = true then
    some (hd, rest)
  else
    none

/-- Try the keyword alternatives in the order they appear in the regex. -/
def matchAnyKw (l : List Char) : Option (List Char × List Char) :=
  match kwMatch "AND".data l with
  | some r => some r
  | none =>
    match kwMatch "OR".data l with
    | some r => some r
    | none => kwMatch "NOT".data l

/-- One maximal `[^()\s]+` word. -/
def takeRunWord (l : List Char) : List Char × List Char :=
  (l.takeWhile isRunChar, l.dropWhile isRunChar)

/-- The greedy `(?:\s+[^()\s]+)*` continuation of a run. -/
def takeRunExt : Nat → List Char → List Char × List Char
  | 0, l => ([], l)
  | fuel + 1, l =>
    let sp := l.takeWhile isPySpace
    let rest := l.dropWhile isPySpace
    if sp.isEmpty then
      ([], l)
    else
      match takeRunWord rest with
      | ([], _) => ([], l)
      | (w, rest') =>
        let (more, fin) := takeRunExt fuel rest'
        (sp ++ w ++ more, fin)

/-- Is the last consumed character a word character (for the next `\b` test)? -/
def lastIsWord (l : List Char) : Bool :=
  match l.getLast? with
  | some c => isWordChar c
  | none => false

/-- The `re.findall` scan.  `fuel` only bounds recursion; every step consumes
at least one character, so `fuel = length + 1` never runs out. -/
def tokenizeAux : Nat → Bool → List Char → List (List Char)
  | 0, _, _ => []
  | _ + 1, _, [] => []
  | fuel + 1, prevWord, c :: cs =>
    if isParen c then
      [c] :: tokenizeAux fuel false cs
    else if isPySpace c then
      tokenizeAux fuel false cs
    else
      match (if prevWord then none else matchAnyKw (c :: cs)) with
      | some (kw, rest) => kw :: tokenizeAux fuel (lastIsWord kw) rest
      | none =>
        let (w, rest) := takeRunWord (c :: cs)
        let (ext, rest') := takeRunExt fuel rest
        (w ++ ext) :: tokenizeAux fuel (lastIsWord (w ++ ext)) rest'

/-- `tokenize(q)`: the `findall` matches, each stripped, empty ones dropped
(`[t.strip() for t in tokens if t.strip()]`). -/
def tokenize (q : String) : List String :=
  (tokenizeAux (q.data.length + 1) false q.data).filterMap fun t =>
    let s := pyStrip t
    if s.isEmpty then none else some (String.mk s)

/-!  ## Shunting yard -/

/-- `prec.get(s, 0)` for `prec = \x7b'NOT':3,'AND':2,'OR':1\x7d`. -/
def precGet (s : String) : Nat :=
  if s = "NOT" then 3 else if s = "AND" then 2 else if s = "OR" then 1 else 0

/-- The operator-token `while` loop:
`while stack and stack[-1] != '(' and prec.get(stack[-1],0) >= prec[up]`.
Returns (operators popped to output in pop order, remaining stack).
The stack is represented head-first (head = Python `stack[-1]`). -/
def popGE (p : Nat) : List String → List String × List String
  | [] => ([], [])
  | s :: rest =>
    if s ≠ "(" ∧ p ≤ precGet s then
      (s :: (popGE p rest).1, (popGE p rest).2)
    else
      ([], s :: rest)

/-- The `)` `while` loop: pop until a `'('` is on top (or the stack empties),
without popping the `'('` itself. -/
def popToParen : List String → List String × List String
  | [] => ([], [])
  | s :: rest =>
    if s = "(" then
      ([], s :: rest)
    else
      (s :: (popToParen rest).1, (popToParen rest).2)

/-- The token loop of `shunting_yard`.  `none` models the `IndexError`
raised by `stack.pop()` when a `')'` finds the stack empty. -/
def syLoop : List String → List String → List String → Option (List String × List String)
  | [], output, stack => some (output, stack)
  | tk :: rest, output, stack =>
    if 0 < precGet (strUpper tk) then
      syLoop rest (output ++ (popGE (precGet (strUpper tk)) stack).1)
        (strUpper tk :: (popGE (precGet (strUpper tk)) stack).2)
    else if tk = "(" then
      syLoop rest output ("(" :: stack)
    else if tk = ")" then
      match (popToParen stack).2 with
      | [] => none
      | _ :: stack'' => syLoop rest (output ++ (popToParen stack).1) stack''
    else
      syLoop rest (output ++ [tk]) stack

/-- The final `while stack:` drain, discarding parentheses. -/
def drainStack : List String → List String
  | [] => []
  | s :: rest => if s = "(" || s = ")" then drainStack rest else s :: drainStack rest

/-- `shunting_yard(tokens)`: infix token list to postfix (RPN) token list. -/
def shunting_yard (tokens : List String) : Option (List String) :=
  (syLoop tokens [] []).map fun p => p.1 ++ drainStack p.2

/-!  ## AST construction -/

/-- The token loop of `build_ast`; the operand stack is head-first
(head = Python `stack[-1]`), so Python's `stack[0]` is the list's last
element.  `none` models the `IndexError` from popping an empty stack. -/
def build_ast_loop : List String → List Expr → Option (List Expr)
  | [], stack => some stack
  | tk :: rest, stack =>
    if strUpper tk = "NOT" then
      match stack with
      | child :: s => build_ast_loop rest (Expr.notOp child :: s)
      | [] => none
    else if strUpper tk = "AND" then
      match stack with
      | right :: left :: s => build_ast_loop rest (Expr.andOp left right :: s)
      | _ => none
    else if strUpper tk = "OR" then
      match stack with
      | right :: left :: s => build_ast_loop rest (Expr.orOp left right :: s)
      | _ => none
    else
      build_ast_loop rest (mkTerm tk :: stack)

/-- `build_ast(rpn)`: run the loop from an empty stack and `return stack[0]`
(the bottom of the stack; `IndexError`, i.e. `none`, when empty). -/
def build_ast (rpn : List String) : Option Expr :=
  (build_ast_loop rpn []).bind fun stack => stack.getLast?

/-- `parse_query(q) = build_ast(shunting_yard(tokenize(q)))`. -/
def parse_query (q : String) : Option Expr :=
  (shunting_yard (tokenize q)).bind build_ast

/-!  ## DNF -/

/-- `ast_to_dnf`: a list of clauses, each clause a list of literals.
The `AndOp` case is the comprehension
`[l + r for l in left_clauses for r in right_clauses]`. -/
def ast_to_dnf : Expr → List (List Expr)
  | .term v => [[.term v]]
  | .notOp c => [[.notOp c]]
  | .orOp l r => ast_to_dnf l ++ ast_to_dnf r
  | .andOp l r => (ast_to_dnf l).flatMap fun c1 => (ast_to_dnf r).map fun c2 => c1 ++ c2

/-- The main loop's evaluation of a DNF against a text:
`any(all(c.eval(texto) for c in conj) for conj in dnf)`. -/
def evalDNF (dnf : List (List Expr)) (txt : String) : Bool :=
  dnf.any fun conj => conj.all fun c => c.eval txt

/-- Is a token treated as an operator by `build_ast` (its uppercase form is
`NOT`, `AND` or `OR`)? -/
def isOpTok (t : String) : Bool :=
  strUpper t = "NOT" || strUpper t = "AND" || strUpper t = "OR"

/-- Does a postfix token sequence supply enough operands before each
operator, starting from `n` operands already on the stack?  Terms push one
operand; `NOT` needs one and leaves one; `AND`/`OR` need two and leave one. -/
def needOk : List String → Nat → Bool
  | [], _ => true
  | tk :: rest, n =>
    if strUpper tk = "NOT" then
      decide (1 ≤ n) && needOk rest n
    else if strUpper tk = "AND" ∨ strUpper tk = "OR" then
      decide (2 ≤ n) && needOk rest (n - 1)
    else
      needOk rest (n + 1)

/-!  ## Helper lemmas -/

theorem evalDNF_append (A B : List (List Expr)) (t : String) :
    evalDNF (A ++ B) t = (evalDNF A t || evalDNF B t) := by
  simp [evalDNF, List.any_append]

theorem evalDNF_map_cons_clause (c : List Expr) (B : List (List Expr)) (t : String) :
    evalDNF (B.map fun c2 => c ++ c2) t = ((c.all fun x => x.eval t) && evalDNF B t) := by
  induction B with
  | nil => simp [evalDNF]
  | cons c2 B ih =>
    simp only [List.map_cons, evalDNF, List.any_cons, List.all_append] at ih ⊢
    rw [ih, ← Bool.and_or_distrib_left]

theorem evalDNF_prod (A B : List (List Expr)) (t : String) :
    evalDNF (A.flatMap fun c1 => B.map fun c2 => c1 ++ c2) t
      = (evalDNF A t && evalDNF B t) := by
  induction A with
  | nil => simp [evalDNF]
  | cons c1 A ih =>
    simp only [List.flatMap_cons]
    rw [evalDNF_append, evalDNF_map_cons_clause, ih]
    simp only [evalDNF, List.any_cons]
    rw [Bool.and_or_distrib_right]

theorem startsWithList_iff (n : List Char) : ∀ h : List Char,
    startsWithList n h = true ↔ ∃ post, h = n ++ post := by
  induction n with
  | nil => intro h; simp [startsWithList]
  | cons a as ih =>
    intro h
    cases h with
    | nil => simp [startsWithList]
    | cons b bs =>
      simp only [startsWithList, Bool.and_eq_true, beq_iff_eq, ih, List.cons_append,
        List.cons.injEq]
      constructor
      · rintro ⟨rfl, post, rfl⟩
        exact ⟨post, rfl, rfl⟩
      · rintro ⟨post, rfl, h2⟩
        exact ⟨rfl, post, h2⟩

theorem listContainsSub_iff (n : List Char) : ∀ h : List Char,
    listContainsSub n h = true ↔ ∃ pre post, h = pre ++ n ++ post := by
  intro h
  induction h with
  | nil =>
    simp only [listContainsSub, List.isEmpty_iff]
    constructor
    · rintro rfl
      exact ⟨[], [], rfl⟩
    · rintro ⟨pre, post, hh⟩
      cases pre <;> cases n <;> simp_all
  | cons c cs ih =>
    simp only [listContainsSub, Bool.or_eq_true, startsWithList_iff, ih]
    constructor
    · rintro (⟨post, hp⟩ | ⟨pre, post, rfl⟩)
      · exact ⟨[], post, by simpa using hp⟩
      · exact ⟨c :: pre, post, rfl⟩
    · rintro ⟨pre, post, hh⟩
      cases pre with
      | nil => exact Or.inl ⟨post, by simpa using hh⟩
      | cons p ps =>
        injection hh with h1 h2
        exact Or.inr ⟨ps, post, h2⟩

theorem length_flatMap_map_append (A B : List (List Expr)) :
    (A.flatMap fun c1 => B.map fun c2 => c1 ++ c2).length = A.length * B.length := by
  induction A with
  | nil => simp
  | cons c A ih =>
    simp only [List.flatMap_cons, List.length_append, List.length_map, ih, List.length_cons]
    rw [Nat.succ_mul]
    omega

/-!  ## Claims -/

/-- C1: for every expression tree built from the `Term`/`NotOp`/`AndOp`/`OrOp`
variants and every candidate text, evaluating the tree directly (`Expr.eval`)
returns the same boolean as evaluating `ast_to_dnf` of the tree against the
text, where the normal form holds iff some clause has all its literals hold
(the main loop's `any(all(...))`). -/
theorem dnf_preserves_eval (e : Expr) (t : String) :
    evalDNF (ast_to_dnf e) t = e.eval t := by
  induction e with
  | term v => simp [ast_to_dnf, evalDNF]
  | notOp c _ => simp [ast_to_dnf, evalDNF]
  | orOp l r ihl ihr =>
    simp only [ast_to_dnf, Expr.eval]
    rw [evalDNF_append, ihl, ihr]
  | andOp l r ihl ihr =>
    simp only [ast_to_dnf, Expr.eval]
    rw [evalDNF_prod, ihl, ihr]

/-- C7: `ast_to_dnf` turns `OrOp` into clause-list concatenation (clause
counts add) and `AndOp` into the cartesian product of clause lists with
clause concatenation (clause counts multiply); on
`And(Or(a,b), Or(c,d))` it yields exactly the clauses
`[a,c],[a,d],[b,c],[b,d]` in that order. -/
theorem dnf_or_concat_and_product :
    (∀ l r : Expr, ast_to_dnf (Expr.orOp l r) = ast_to_dnf l ++ ast_to_dnf r)
    ∧ (∀ l r : Expr, ast_to_dnf (Expr.andOp l r)
        = (ast_to_dnf l).flatMap fun c1 => (ast_to_dnf r).map fun c2 => c1 ++ c2)
    ∧ (∀ l r : Expr, (ast_to_dnf (Expr.orOp l r)).length
        = (ast_to_dnf l).length + (ast_to_dnf r).length)
    ∧ (∀ l r : Expr, (ast_to_dnf (Expr.andOp l r)).length
        = (ast_to_dnf l).length * (ast_to_dnf r).length)
    ∧ (∀ a b c d : String,
        ast_to_dnf (Expr.andOp (Expr.orOp (Expr.term a) (Expr.term b))
            (Expr.orOp (Expr.term c) (Expr.term d)))
          = [[Expr.term a, Expr.term c], [Expr.term a, Expr.term d],
             [Expr.term b, Expr.term c], [Expr.term b, Expr.term d]]) := by
  refine ⟨fun l r => rfl, fun l r => rfl, fun l r => by simp [ast_to_dnf], ?_, ?_⟩
  · intro l r
    simp only [ast_to_dnf]
    exact length_flatMap_map_append _ _
  · intro a b c d
    rfl

/-- C8: `Term(v).eval(t)` is true iff the lowercased, whitespace-trimmed `v`
occurs as a contiguous substring of the lowercased `t`; in particular the
term `"Lixo"` matches a text containing `"muito lixo eletrônico"`. -/
theorem term_eval_substring :
    (∀ v t : String, Expr.eval (mkTerm v) t = true ↔
        ∃ pre post, pyLower t.data = pre ++ pyStrip (pyLower v.data) ++ post)
    ∧ Expr.eval (mkTerm "Lixo") "no estudo havia muito lixo eletrônico descartado" = true := by
  constructor
  · intro v t
    simp only [mkTerm, Expr.eval]
    exact listContainsSub_iff _ _
  · decide

/-- C9: every element of every clause produced by `ast_to_dnf` is a literal,
i.e. a `Term` or a `NotOp` node; `AndOp`/`OrOp` nodes never appear directly
inside a clause. -/
theorem dnf_clauses_only_literals (e : Expr) :
    ((ast_to_dnf e).all fun c => c.all isLiteral) = true := by
  induction e with
  | term v => simp [ast_to_dnf, isLiteral]
  | notOp c _ => simp [ast_to_dnf, isLiteral]
  | orOp l r ihl ihr =>
    simp only [ast_to_dnf, List.all_append, Bool.and_eq_true]
    exact ⟨ihl, ihr⟩
  | andOp l r ihl ihr =>
    simp only [ast_to_dnf, List.all_eq_true] at ihl ihr ⊢
    intro c hc x hx
    simp only [List.mem_flatMap, List.mem_map] at hc
    obtain ⟨c1, h1, c2, h2, rfl⟩ := hc
    rcases List.mem_append.mp hx with h | h
    · exact ihl c1 h1 x h
    · exact ihr c2 h2 x h

theorem syLoop_no_rparen (ts : List String) : ∀ output stack : List String,
    (")" ∉ ts) → ∃ p, syLoop ts output stack = some p := by
  induction ts with
  | nil =>
    intro output stack _
    exact ⟨(output, stack), rfl⟩
  | cons tk rest ih =>
    intro output stack hmem
    have htk : tk ≠ ")" := fun h => hmem (h ▸ List.mem_cons_self _ _)
    have hrest : ")" ∉ rest := fun h => hmem (List.mem_cons_of_mem _ h)
    simp only [syLoop]
    by_cases h1 : 0 < precGet (strUpper tk)
    · rw [if_pos h1]
      exact ih _ _ hrest
    · rw [if_neg h1]
      by_cases h2 : tk = "("
      · rw [if_pos h2]
        exact ih _ _ hrest
      · rw [if_neg h2, if_neg htk]
        exact ih _ _ hrest

theorem build_ast_loop_underflow (rpn : List String) : ∀ stack : List Expr,
    needOk rpn stack.length = false → build_ast_loop rpn stack = none := by
  induction rpn with
  | nil =>
    intro stack h
    simp [needOk] at h
  | cons tk rest ih =>
    intro stack h
    simp only [needOk] at h
    simp only [build_ast_loop]
    by_cases h1 : strUpper tk = "NOT"
    · rw [if_pos h1] at h ⊢
      cases stack with
      | nil => rfl
      | cons child s =>
        have hle : (1 : Nat) ≤ (child :: s).length := Nat.succ_le_succ (Nat.zero_le _)
        simp only [hle, decide_eq_true_eq, decide_eq_true, Bool.true_and] at h
        exact ih _ (by simpa using h)
    · rw [if_neg h1] at h ⊢
      by_cases h2 : strUpper tk = "AND" ∨ strUpper tk = "OR"
      · rw [if_pos h2] at h
        rcases h2 with h2 | h2
        · rw [if_pos h2]
          cases stack with
          | nil => rfl
          | cons right s' =>
            cases s' with
            | nil => rfl
            | cons left s =>
              have hle : (2 : Nat) ≤ (right :: left :: s).length :=
                Nat.succ_le_succ (Nat.succ_le_succ (Nat.zero_le _))
              simp only [hle, decide_eq_true, Bool.true_and] at h
              refine ih _ ?_
              simpa using h
        · have h2' : ¬ strUpper tk = "AND" := by
            intro hand
            rw [hand] at h2
            exact absurd h2 (by decide)
          rw [if_neg h2', if_pos h2]
          cases stack with
          | nil => rfl
          | cons right s' =>
            cases s' with
            | nil => rfl
            | cons left s =>
              have hle : (2 : Nat) ≤ (right :: left :: s).length :=
                Nat.succ_le_succ (Nat.succ_le_succ (Nat.zero_le _))
              simp only [hle, decide_eq_true, Bool.true_and] at h
              refine ih _ ?_
              simpa using h
      · rw [if_neg h2] at h
        have h2a : ¬ strUpper tk = "AND" := fun hh => h2 (Or.inl hh)
        have h2b : ¬ strUpper tk = "OR" := fun hh => h2 (Or.inr hh)
        rw [if_neg h2a, if_neg h2b]
        exact ih _ (by simpa using h)

theorem build_ast_loop_terms (ts : List String) : ∀ stack : List Expr,
    (ts.all fun t => !isOpTok t) = true →
    build_ast_loop ts stack = some ((ts.map mkTerm).reverse ++ stack) := by
  induction ts with
  | nil =>
    intro stack _
    simp [build_ast_loop]
  | cons tk rest ih =>
    intro stack hall
    simp only [List.all_cons, Bool.and_eq_true] at hall
    obtain ⟨htk, hrest⟩ := hall
    have h1 : ¬ strUpper tk = "NOT" := fun h => by simp [isOpTok, h] at htk
    have h2 : ¬ strUpper tk = "AND" := fun h => by simp [isOpTok, h] at htk
    have h3 : ¬ strUpper tk = "OR" := fun h => by simp [isOpTok, h] at htk
    simp only [build_ast_loop]
    rw [if_neg h1, if_neg h2, if_neg h3, ih _ hrest]
    simp [List.reverse_cons, List.append_assoc]

/-- C2 (code-bug evidence): `tokenize` does not emit `AND` as an operator
token inside a word run: on `"a AND b"` the catch-all run alternative of the
regex swallows the whole query into a single term token, instead of the
three tokens the tokenizer is documented to produce. -/
theorem tokenize_swallows_keywords :
    tokenize "a AND b" = ["a AND b"] ∧ tokenize "a AND b" ≠ ["a", "AND", "b"] :=
  ⟨by decide, by decide⟩

/-- C3 (code-bug evidence): because `tokenize` collapses `"a OR b AND c"`
into one term token, `parse_query` returns the single term
`Term("a or b and c")` instead of `Or(Term(a), And(Term(b), Term(c)))`.
The precedence machinery itself is correct: fed the properly split token
sequence, `shunting_yard` + `build_ast` produce exactly the claimed tree. -/
theorem parse_precedence_defeated :
    parse_query "a OR b AND c" = some (Expr.term "a or b and c")
    ∧ parse_query "a OR b AND c"
        ≠ some (Expr.orOp (mkTerm "a") (Expr.andOp (mkTerm "b") (mkTerm "c")))
    ∧ (shunting_yard ["a", "OR", "b", "AND", "c"]).bind build_ast
        = some (Expr.orOp (mkTerm "a") (Expr.andOp (mkTerm "b") (mkTerm "c"))) :=
  ⟨by decide, by decide, by decide⟩

/-- C4 counterexample: on the token sequence `NOT, NOT, a` the incoming
`NOT` *does* pop the equal-precedence `NOT` from the stack (the code's pop
condition is plain `>=`), so the postfix output is `[NOT, a, NOT]` — the
two `NOT`s are reordered, not nested (`[a, NOT, NOT]`). -/
theorem sy_not_pops_equal_not :
    shunting_yard ["NOT", "NOT", "a"] = some ["NOT", "a", "NOT"]
    ∧ shunting_yard ["NOT", "NOT", "a"] ≠ some ["a", "NOT", "NOT"] :=
  ⟨by decide, by decide⟩

/-- C4 amended: on reading an operator token, the stack-top operators popped
to output are exactly those of greater *or equal* precedence (stopping at a
`(` marker), with no exemption for `NOT`: an incoming `NOT` pops an
equal-precedence `NOT`, so `NOT, NOT, a` produces the postfix
`[NOT, a, NOT]`. -/
theorem sy_pop_rule :
    (∀ (p : Nat) (st : List String),
        popGE p st
          = (st.takeWhile fun s => decide (s ≠ "(") && decide (p ≤ precGet s),
             st.dropWhile fun s => decide (s ≠ "(") && decide (p ≤ precGet s)))
    ∧ shunting_yard ["NOT", "NOT", "a"] = some ["NOT", "a", "NOT"] := by
  constructor
  · intro p st
    induction st with
    | nil => rfl
    | cons s rest ih =>
      simp only [popGE, List.takeWhile_cons, List.dropWhile_cons]
      by_cases hc : s ≠ "(" ∧ p ≤ precGet s
      · rw [if_pos hc, ih]
        simp [hc.1, hc.2]
      · rw [if_neg hc]
        have hb : (decide (s ≠ "(") && decide (p ≤ precGet s)) = false := by
          rcases not_and_or.mp hc with h | h <;> simp [h]
        rw [hb]
        simp
  · decide

/-- C5 counterexample: a `)` token with no `(` marker on the operator stack
is *not* discarded silently: `stack.pop()` runs on an empty list and the
parse fails (modelled as `none`). -/
theorem sy_unmatched_rparen_fails : shunting_yard [")"] = none := by decide

/-- C5 amended: `(` markers left on the stack at end of input are discarded
without error — any token sequence containing no `)` parses successfully —
but a `)` token that finds no `(` on the stack raises an `IndexError`
instead of being discarded. -/
theorem sy_paren_tolerance :
    (∀ ts : List String, (")" ∉ ts) → ∃ out, shunting_yard ts = some out)
    ∧ shunting_yard ["(", "a"] = some ["a"]
    ∧ shunting_yard [")"] ≠ some [] := by
  refine ⟨?_, by decide, by decide⟩
  intro ts hts
  obtain ⟨p, hp⟩ := syLoop_no_rparen ts [] [] hts
  exact ⟨p.1 ++ drainStack p.2, by simp [shunting_yard, hp]⟩

/-- C5 witness for the amended theorem, at the token sequence `["(", "a"]`
(an unmatched `(` that is silently dropped). -/
theorem sy_paren_tolerance_w : ∃ out, shunting_yard ["(", "a"] = some out :=
  sy_paren_tolerance.1 ["(", "a"] (by decide)

/-- C6: a postfix token sequence that does not supply enough operands before
some operator (the running operand count would underflow: `needOk`) makes
`build_ast` fail with the stack-underflow error (`stack.pop()` on an empty
list, the spec's `MalformedQuery`) instead of returning an expression. -/
theorem build_ast_underflow (rpn : List String) (h : needOk rpn 0 = false) :
    build_ast rpn = none := by
  unfold build_ast
  rw [build_ast_loop_underflow rpn [] (by simpa using h)]
  rfl

/-- C6 witness: the single-token postfix sequence `["AND"]` (the query
`"AND"`) underflows and `build_ast` fails. -/
theorem build_ast_underflow_w : needOk ["AND"] 0 = false ∧ build_ast ["AND"] = none :=
  ⟨by decide, build_ast_underflow ["AND"] (by decide)⟩

/-- C10: when the postfix sequence leaves several operands on the stack,
`build_ast` raises no error and returns Python's `stack[0]`, the
first-pushed (bottom) operand, discarding the rest: a sequence of pure term
tokens yields the *first* token's `Term`; in particular the query
`"(a) (b)"` produces the postfix `["a", "b"]` and parses to `Term("a")`,
silently discarding `Term("b")`. -/
theorem build_ast_extra_operands :
    (∀ (rpn : List String) (st : List Expr),
        build_ast_loop rpn [] = some st → 1 < st.length → build_ast rpn = st.getLast?)
    ∧ (∀ ts : List String, (ts.all fun t => !isOpTok t) = true →
        build_ast ts = ts.head?.map mkTerm)
    ∧ shunting_yard (tokenize "(a) (b)") = some ["a", "b"]
    ∧ parse_query "(a) (b)" = some (mkTerm "a") := by
  refine ⟨?_, ?_, by decide, by decide⟩
  · intro rpn st hloop _
    unfold build_ast
    rw [hloop]
    rfl
  · intro ts hall
    unfold build_ast
    rw [build_ast_loop_terms ts [] hall]
    simp

/-- C10 witness: the postfix sequence `["a", "b"]` (two operands, no
operator) yields the first-pushed operand `Term("a")` without error. -/
theorem build_ast_extra_operands_w : build_ast ["a", "b"] = some (mkTerm "a") := by
  have h := build_ast_extra_operands.2.1 ["a", "b"] (by decide)
  simpa using h
